import Mathlib

/-!
Verification of the request-interception engine of the `responses` library
(`src/responses/__init__.py`) against its specification.  Python strings are
modelled as `List Char`, byte strings as `List Nat`, and the mutable
`RequestsMock` object as an explicit state record that the dispatch
functions thread through.  External collaborators (the `urllib` URL helpers,
the urllib3 retry object, the patched real transport) are modelled at their
boundary, as the specification prescribes.
-/

namespace Responses

/-- Python `str`, modelled as a list of characters. -/
abbrev Str := List Char

/-- Python `str.split(sep)` for a single-character separator: splitting an
empty string yields `[""]`, and adjacent separators yield empty fields. -/
def splitOnChar (c : Char) : Str → List Str
  | [] => [[]]
  | x :: xs =>
    if x = c then [] :: splitOnChar c xs
    else
      match splitOnChar c xs with
      | [] => [[x]]
      | f :: fs => (x :: f) :: fs

/-- Python `sep.join(parts)`. -/
def joinWith (sep : Str) : List Str → Str
  | [] => []
  | [x] => x
  | x :: xs => x ++ sep ++ joinWith sep xs

/-- Python `s.startswith(pre)`. -/
def startsWith : Str → Str → Bool
  | _, [] => true
  | [], _ :: _ => false
  | x :: xs, y :: ys => x = y && startsWith xs ys

/-- Embeds `_has_unicode`: whether any character has code point above 128
(the code tests `ord(char) > 128`, an exclusive bound). -/
def hasUnicode (s : Str) : Bool := s.any (fun c => 128 < c.toNat)

/-! ### The `urllib.parse` boundary

`urlsplit`, `urlunsplit` and `quote` are Python standard-library calls; the
library relies on their documented behaviour on `scheme://netloc/path?query#fragment`
strings, which is modelled here. -/

/-- Result of `urllib.parse.urlsplit`. -/
structure SplitUrl where
  scheme : Str
  netloc : Str
  path : Str
  query : Str
  fragment : Str
deriving DecidableEq

/-- Characters permitted in a URL scheme. -/
def schemeChar (c : Char) : Bool := c.isAlphanum || c = '+' || c = '-' || c = '.'

/-- Characters that terminate the network-location part. -/
def stopChar (c : Char) : Bool := c = '/' || c = '?' || c = '#'

/-- Scheme detection of `urlsplit`: a nonempty run of scheme characters
before the first colon is the (lowercased) scheme. -/
def splitScheme (s : Str) : Str × Str :=
  match s.findIdx? (· = ':') with
  | some i =>
    let before := s.take i
    if 0 < i ∧ before.all schemeChar then (before.map Char.toLower, s.drop (i + 1))
    else ([], s)
  | none => ([], s)

/-- Network-location step of `urlsplit`: after a leading `//`, the netloc
runs until the first of `/?#`. -/
def netlocSplit : Str → Str × Str
  | '/' :: '/' :: r => (r.takeWhile (fun c => ¬ stopChar c), r.dropWhile (fun c => ¬ stopChar c))
  | r => ([], r)

/-- Models `urllib.parse.urlsplit`: scheme, then `//netloc` up to the first
of `/?#`, then the fragment after the first `#`, then the query after the
first `?`. -/
def urlsplit (url : Str) : SplitUrl :=
  let sr := splitScheme url
  let nr : Str × Str := netlocSplit sr.2
  let rf : Str × Str :=
    match nr.2.findIdx? (· = '#') with
    | some i => (nr.2.take i, nr.2.drop (i + 1))
    | none => (nr.2, [])
  let pq : Str × Str :=
    match rf.1.findIdx? (· = '?') with
    | some i => (rf.1.take i, rf.1.drop (i + 1))
    | none => (rf.1, [])
  ⟨sr.1, nr.1, pq.1, pq.2, rf.2⟩

/-- Models `urllib.parse.urlunsplit`. -/
def urlunsplit (p : SplitUrl) : Str :=
  let url := p.path
  let url :=
    if ¬ p.netloc.isEmpty ∨ startsWith url ['/', '/'] then
      '/' :: '/' :: (p.netloc ++ (if ¬ url.isEmpty ∧ url.head? ≠ some '/' then '/' :: url else url))
    else url
  let url := if ¬ p.scheme.isEmpty then p.scheme ++ ':' :: url else url
  let url := if ¬ p.query.isEmpty then url ++ '?' :: p.query else url
  if ¬ p.fragment.isEmpty then url ++ '#' :: p.fragment else url

/-- Uppercase hexadecimal digit, as produced by `urllib.parse.quote`. -/
def hexDigit (n : Nat) : Char :=
  if n < 10 then Char.ofNat (48 + n) else Char.ofNat (55 + n)

/-- UTF-8 encoding of one code point. -/
def utf8Bytes (c : Char) : List Nat :=
  let n := c.toNat
  if n < 0x80 then [n]
  else if n < 0x800 then [0xC0 + n / 0x40, 0x80 + n % 0x40]
  else if n < 0x10000 then
    [0xE0 + n / 0x1000, 0x80 + (n / 0x40) % 0x40, 0x80 + n % 0x40]
  else
    [0xF0 + n / 0x40000, 0x80 + (n / 0x1000) % 0x40, 0x80 + (n / 0x40) % 0x40, 0x80 + n % 0x40]

/-- Models `urllib.parse.quote` applied to one non-safe character: percent
encoding of its UTF-8 bytes. -/
def quoteChar (c : Char) : Str :=
  (utf8Bytes c).flatMap (fun b => ['%', hexDigit (b / 16), hexDigit (b % 16)])

/-! ### Punycode (RFC 3492), used by `str.encode("punycode")` -/

/-- Digit alphabet of punycode: `a`-`z` then `0`-`9`. -/
def punyDigit (d : Nat) : Char :=
  if d < 26 then Char.ofNat (97 + d) else Char.ofNat (48 + (d - 26))

/-- Threshold function `T(k, bias)` with `tmin = 1`, `tmax = 26`. -/
def punyT (k bias : Nat) : Nat :=
  if k ≤ bias then 1 else if bias + 26 ≤ k then 26 else k - bias

/-- Inner loop of the bias adaptation; the fuel argument only bounds the
iteration count, which is reached long before the fuel runs out. -/
def punyAdaptLoop : Nat → Nat → Nat → Nat × Nat
  | 0, delta, k => (delta, k)
  | fuel + 1, delta, k =>
    if 455 < delta then punyAdaptLoop fuel (delta / 35) (k + 36) else (delta, k)

/-- Bias adaptation of RFC 3492 (`damp = 700`, `skew = 38`, `base = 36`). -/
def punyAdapt (delta numpoints : Nat) (firsttime : Bool) : Nat :=
  let d := if firsttime then delta / 700 else delta / 2
  let d := d + d / numpoints
  let dk := punyAdaptLoop (d + 1) d 0
  dk.2 + (36 * dk.1) / (dk.1 + 38)

/-- Variable-length integer encoding of a delta; generalized variable
threshold digits, fuel-bounded (the quotient strictly decreases). -/
def punyEncodeInt : Nat → Nat → Nat → Nat → Str
  | 0, _, _, q => [punyDigit q]
  | fuel + 1, k, bias, q =>
    let t := punyT k bias
    if q < t then [punyDigit q]
    else punyDigit (t + (q - t) % (36 - t)) :: punyEncodeInt fuel (k + 36) bias ((q - t) / (36 - t))

/-- State of the punycode insertion-coding loop. -/
structure PunyState where
  n : Nat
  delta : Nat
  bias : Nat
  h : Nat
  out : Str

/-- One pass over the code points at the current value of `n`. -/
def punyInner (b : Nat) : List Nat → PunyState → PunyState
  | [], st => st
  | c :: rest, st =>
    let st :=
      if c < st.n then { st with delta := st.delta + 1 }
      else if c = st.n then
        { st with
          out := st.out ++ punyEncodeInt (st.delta + 1) 36 st.bias st.delta
          bias := punyAdapt st.delta (st.h + 1) (st.h = b)
          delta := 0
          h := st.h + 1 }
      else st
    punyInner b rest st

/-- Smallest code point that is at least `n`. -/
def minCodepointGE (cps : List Nat) (n : Nat) : Nat :=
  (cps.filter (fun c => n ≤ c)).foldr min (2 ^ 32)

/-- Outer loop of punycode encoding; each iteration handles one value of
`n` and extends at least one code point, so the fuel (the length of the
input plus one) is never exhausted on real inputs. -/
def punyOuter (cps : List Nat) (b : Nat) : Nat → PunyState → Str
  | 0, st => st.out
  | fuel + 1, st =>
    if st.h < cps.length then
      let m := minCodepointGE cps st.n
      let st := { st with delta := st.delta + (m - st.n) * (st.h + 1), n := m }
      let st := punyInner b cps st
      punyOuter cps b fuel { st with delta := st.delta + 1, n := st.n + 1 }
    else st.out

/-- Models `label.encode("punycode")`: the basic (code point below 128)
characters in order, a `-` delimiter when any exist, then the insertion
coding of the remaining characters. -/
def punycodeEncode (label : Str) : Str :=
  let cps := label.map Char.toNat
  let basics := label.filter (fun c => c.toNat < 128)
  let b := basics.length
  let out := basics ++ (if 0 < b then ['-'] else [])
  punyOuter cps b (cps.length + 1) { n := 128, delta := 0, bias := 72, h := b, out := out }

/-- Embeds `_clean_unicode`: punycode-encode the domain labels that contain
a character with code point above 128, then percent-encode every remaining
character with code point above 128. -/
def cleanUnicode (url : Str) : Str :=
  let p := urlsplit url
  let url :=
    if hasUnicode p.netloc then
      let domains := (splitOnChar '.' p.netloc).map
        (fun d => if hasUnicode d then ('x' :: 'n' :: '-' :: '-' :: punycodeEncode d) else d)
      urlunsplit { p with netloc := joinWith ['.'] domains }
    else url
  url.flatMap (fun c => if 128 < c.toNat then quoteChar c else [c])

/-! ### The `urllib3.parse_url` boundary

`_get_url_and_path` ends with `parse_url(url).url`, an external urllib3
call (the library floor is 1.25.10) that re-assembles the URL after
normalizing it: the scheme and host are lowercased, the path has its
dot segments removed and its invalid characters percent-encoded with
uppercase hex (every byte at or above 128, and every ASCII character
outside the allowed path set), existing percent escapes being uppercased.
IDNA encoding of a non-ASCII host, IPv6 bracket handling, userinfo
percent-encoding and numeric port canonicalization are outside this
model. -/

/-- Hexadecimal digit test, as in the `%[a-fA-F0-9]{2}` escape pattern. -/
def isHexDigitChar (c : Char) : Bool :=
  c.isDigit || ('a' ≤ c ∧ c ≤ 'f') || ('A' ≤ c ∧ c ≤ 'F')

/-- The apostrophe character, spelled by code point. -/
def apos : Char := Char.ofNat 39

/-- UTF-8 encoding of a whole string, as `str.encode("utf-8")`. -/
def utf8Encode (s : Str) : List Nat := s.flatMap utf8Bytes

/-- Characters a URL path may contain un-encoded (urllib3 `PATH_CHARS`):
unreserved characters, sub-delims, and `:`, `@`, `/`. -/
def pathAllowedChar (c : Char) : Bool :=
  c.isAlphanum || c = '-' || c = '.' || c = '_' || c = '~'
    || c = '!' || c = '$' || c = '&' || c = apos || c = '(' || c = ')'
    || c = '*' || c = '+' || c = ',' || c = ';' || c = '='
    || c = ':' || c = '@' || c = '/'

/-- Normalization of existing percent escapes (`_PERCENT_RE.subn` in
urllib3 `_encode_invalid_chars`): every valid `%XX` escape has its hex
digits uppercased, and the flag reports whether any escape was found. -/
def upperPercentEscapes : Str → Str × Bool
  | [] => ([], false)
  | '%' :: a :: b :: rest =>
    if isHexDigitChar a && isHexDigitChar b then
      let r := upperPercentEscapes rest
      ('%' :: a.toUpper :: b.toUpper :: r.1, true)
    else
      let r := upperPercentEscapes (a :: b :: rest)
      ('%' :: r.1, r.2)
  | c :: rest =>
    let r := upperPercentEscapes rest
    (c :: r.1, r.2)

/-- Models urllib3 `_encode_invalid_chars` on a path: after uppercasing
existing escapes, every UTF-8 byte of the component is kept when it is an
allowed ASCII path character — or a `%` while the component already uses
percent encoding — and percent-encoded with uppercase hex otherwise. -/
def encodeInvalidPathChars (path : Str) : Str :=
  let up := upperPercentEscapes path
  (utf8Encode up.1).flatMap (fun byte =>
    if (up.2 && byte = 37) || (byte < 128 && pathAllowedChar (Char.ofNat byte)) then
      [Char.ofNat byte]
    else ['%', hexDigit (byte / 16), hexDigit (byte % 16)])

/-- Python `s.endswith(suffix)`. -/
def endsWith (s suffix : Str) : Bool := startsWith s.reverse suffix.reverse

/-- Models urllib3 `_remove_path_dot_segments` (RFC 3986 section 5.2.4):
drop `.` segments, let `..` segments pop the previous one, restore the
leading slash and the trailing slash left by a final `/.` or `/..`. -/
def removeDotSegments (path : Str) : Str :=
  let segments := splitOnChar '/' path
  let output := segments.foldl
    (fun out seg =>
      if seg = ".".toList then out
      else if seg ≠ "..".toList then out ++ [seg]
      else out.dropLast) []
  let output :=
    if startsWith path ['/']
        && (match output with | [] => true | h :: _ => ! h.isEmpty) then
      [] :: output
    else output
  let output :=
    if endsWith path "/.".toList || endsWith path "/..".toList then output ++ [[]]
    else output
  joinWith ['/'] output

/-- Authority normalization of the `parse_url` round trip: the userinfo
before the last `@` is kept, the host (with any port) after it is
lowercased. -/
def normalizeNetloc (netloc : Str) : Str :=
  let parts := splitOnChar '@' netloc
  match parts with
  | [] => netloc.map Char.toLower
  | [h] => h.map Char.toLower
  | _ :: _ :: _ =>
    joinWith ['@'] parts.dropLast ++ '@' :: (parts.getLastD []).map Char.toLower

/-- Embeds `_get_url_and_path`: keep only scheme, netloc and path, then
the `urllib3.parse_url(...).url` round trip, which lowercases the scheme
and the host and — for a nonempty path — removes dot segments and
percent-encodes invalid path characters. -/
def getUrlAndPath (url : Str) : Str :=
  let p := urlsplit url
  urlunsplit
    { scheme := p.scheme.map Char.toLower
      netloc := normalizeNetloc p.netloc
      path := if p.path.isEmpty then p.path
              else encodeInvalidPathChars (removeDotSegments p.path)
      query := []
      fragment := [] }

/-- A registered URL: either a literal string or a compiled regular
expression, the latter modelled by its match predicate on the request URL. -/
inductive UrlPattern where
  | str (u : Str)
  | regex (test : Str → Bool)

/-- Embeds `BaseResponse._url_matches`: literal URLs are unicode-cleaned
when needed and compared on scheme+netloc+path; pattern URLs are tested by
regex match against the request URL. -/
def urlMatches : UrlPattern → Str → Bool
  | .str u, other =>
    let u := if hasUnicode u then cleanUnicode u else u
    getUrlAndPath u == getUrlAndPath other
  | .regex test, other => test other

/-- Embeds `_ensure_url_default_path`: a literal URL with an empty path gets
path `/`; other URLs and compiled patterns are returned unchanged. -/
def ensureUrlDefaultPath : UrlPattern → UrlPattern
  | .str u =>
    let p := urlsplit u
    if p.path.isEmpty then .str (urlunsplit { p with path := ['/'] }) else .str u
  | pat => pat

/-! ### Query-string parsing (`urllib.parse.parse_qsl` and
`RequestsMock._parse_request_params`) -/

/-- Value of a hexadecimal digit. -/
def hexVal (c : Char) : Nat :=
  if c.isDigit then c.toNat - 48 else if 'a' ≤ c then c.toNat - 87 else c.toNat - 55

/-- Models `urllib.parse.unquote_plus`: `+` becomes a space and `%XX`
becomes the character with that code (exact for the ASCII range used in
query strings; invalid escapes are left untouched). -/
def unquotePlus : Str → Str
  | [] => []
  | '+' :: rest => ' ' :: unquotePlus rest
  | '%' :: a :: b :: rest =>
    if isHexDigitChar a && isHexDigitChar b then
      Char.ofNat (hexVal a * 16 + hexVal b) :: unquotePlus rest
    else '%' :: unquotePlus (a :: b :: rest)
  | c :: rest => c :: unquotePlus rest

/-- Models `urllib.parse.parse_qsl` with its defaults: fields split on `&`,
empty fields and fields without `=` or with an empty value are dropped
(`keep_blank_values=False`), names and values are plus/percent decoded. -/
def parseQsl (qs : Str) : List (Str × Str) :=
  (splitOnChar '&' qs).foldr
    (fun field acc =>
      if field.isEmpty then acc
      else
        match field.findIdx? (· = '=') with
        | none => acc
        | some i =>
          let value := field.drop (i + 1)
          if value.isEmpty then acc
          else (unquotePlus (field.take i), unquotePlus value) :: acc)
    []

/-- Models `itertools.groupby` keyed on the pair fst: the maximal runs of
adjacent pairs sharing a key, each with the list of its values. -/
def groupRuns : List (Str × Str) → List (Str × List Str)
  | [] => []
  | (k, v) :: rest =>
    match groupRuns rest with
    | [] => [(k, [v])]
    | (k2, vs) :: gs => if k = k2 then (k, v :: vs) :: gs else (k, [v]) :: (k2, vs) :: gs

/-- A value in the derived params mapping: a lone value or a list. -/
inductive QVal where
  | single (v : Str)
  | multi (vs : List Str)
deriving DecidableEq

/-- Python dict assignment `d[k] = v`: replace the value of an existing key
in place, otherwise append the binding. -/
def dictSet (d : List (Str × QVal)) (k : Str) (v : QVal) : List (Str × QVal) :=
  match d with
  | [] => [(k, v)]
  | (k2, v2) :: rest => if k2 = k then (k, v) :: rest else (k2, v2) :: dictSet rest k v

/-- Python dict lookup `d[k]`. -/
def dictGet (d : List (Str × QVal)) (k : Str) : Option QVal :=
  match d with
  | [] => none
  | (k2, v2) :: rest => if k2 = k then some v2 else dictGet rest k

/-- Value a run of the grouped query pairs contributes: the single value
for a run of length one, otherwise the list of the run values. -/
def runContribution (vs : List Str) : QVal :=
  match vs with
  | [v] => .single v
  | vs => .multi vs

/-- Embeds `RequestsMock._parse_request_params`: group the parsed query
pairs with `groupby`, collapse singleton groups to their value, and store
each group in a dict under its key. -/
def parseRequestParams (url : Str) : List (Str × QVal) :=
  (groupRuns (parseQsl (urlsplit url).query)).foldl
    (fun params kv => dictSet params kv.1 (runContribution kv.2)) []

/-- The `requests` library property `PreparedRequest.path_url`: the path
(or `/` when empty) followed by the query string. -/
def pathUrl (url : Str) : Str :=
  let p := urlsplit url
  (if p.path.isEmpty then ['/'] else p.path) ++
    (if p.query.isEmpty then [] else '?' :: p.query)

/-! ### Body materialization (`_handle_body`) -/

/-- The buffer state behind the `BytesIO` returned by `_handle_body`:
contents, read position, and whether the stream has been closed. -/
structure ByteStream where
  buf : List Nat
  pos : Nat
  closed : Bool
deriving DecidableEq

/-- Whether every byte of the stream has been consumed. -/
def ByteStream.exhausted (s : ByteStream) : Bool := s.buf.length ≤ s.pos

/-- Models `BytesIO.close`: marks the stream closed and discards the
buffer (a closed `BytesIO` frees its contents); closing again is a no-op. -/
def ByteStream.close (_ : ByteStream) : ByteStream :=
  { buf := [], pos := 0, closed := true }

/-- Embeds the `is_closed` probe installed by `_handle_body`: while unread
bytes remain, report open (the probe reads one byte and seeks back); on
first probing an exhausted open stream, close it but still report open;
only a stream closed that way reports closed. -/
def ByteStream.isclosed (s : ByteStream) : Bool × ByteStream :=
  if ¬ s.closed ∧ s.pos < s.buf.length then (false, s)
  else if ¬ s.closed then (false, s.close)
  else (true, s)

/-- Models `BytesIO.read` of one byte for an open stream. -/
def ByteStream.read1 (s : ByteStream) : Option Nat × ByteStream :=
  match s.buf.get? s.pos with
  | some b => (some b, { s with pos := s.pos + 1 })
  | none => (none, s)

/-- A body passed to `_handle_body` as text or bytes (the pre-opened
`BufferedReader` branch passes the reader through unchanged and has no
wrapped stream to reason about). -/
inductive BodyInput where
  | text (s : Str)
  | bytes (bs : List Nat)

/-- Embeds `_handle_body` on text and byte bodies: text is UTF-8 encoded,
and the bytes are wrapped in a fresh open stream. -/
def handle_body : BodyInput → ByteStream
  | .text s => { buf := utf8Encode s, pos := 0, closed := false }
  | .bytes bs => { buf := bs, pos := 0, closed := false }

/-! ### Content-type selection of `Response.__init__` -/

/-- The `content_type` argument: the `_UNSET` sentinel default, or an
explicitly supplied value (possibly `None`). -/
inductive CTArg where
  | unset
  | given (ct : Option Str)

/-- The body argument of a static registration. -/
inductive RBody where
  | text (s : Str)
  | bytes (bs : List Nat)
  | exc (e : Nat)
  | stream

/-- Embeds the content-type selection of `Response.__init__`: a `json`
argument forces `application/json` unless `content_type` was supplied; an
explicit `content_type` always wins; otherwise a text body containing a
character with code point above 128 yields the UTF-8 text type and
anything else yields plain text. -/
def responseContentType (body : RBody) (json : Option Nat) (content_type : CTArg) : Option Str :=
  let ct : CTArg :=
    match json with
    | some _ =>
      match content_type with
      | .unset => .given (some "application/json".toList)
      | g => g
    | none => content_type
  match ct with
  | .given c => c
  | .unset =>
    match body with
    | .text s =>
      if hasUnicode s then some "text/plain; charset=utf-8".toList
      else some "text/plain".toList
    | _ => some "text/plain".toList

/-! ### Responders, the registry, and the mock state -/

/-- An intercepted request as `_on_request` enriches it: method, full URL,
and the derived `params` mapping attached before matching. -/
structure EnrichedRequest where
  method : Str
  url : Str
  params : List (Str × QVal)

/-- The reply object built by `adapter.build_response`: status code and
body bytes, with the method of the request it answers (used by the retry
check through `response.request.method`). -/
structure Resp where
  status : Nat
  body : List Nat
deriving DecidableEq

/-- Exceptions the engine raises or records. -/
inductive PyErr where
  | connectionError (msg : Str)
  | simulated (e : Nat)
  | maxRetryError
  | attributeError
  | runtimeError

/-- The reply-producing strategy of a responder: `passthrough` defers to
the real transport; `reply` covers the static and callback variants, whose
materialization either produces a reply or raises (a body or callback
result that is an exception instance is raised by `get_response`). -/
inductive Strategy where
  | passthrough
  | reply (f : EnrichedRequest → Except PyErr Resp)

/-- A registered responder (`BaseResponse` and its subclasses): method,
URL pattern, matcher chain, reply strategy and the mutable call counter. -/
structure Responder where
  method : Str
  url : UrlPattern
  matchList : List (EnrichedRequest → Bool × Str)
  strategy : Strategy
  call_count : Nat

/-- Embeds `BaseResponse._req_attr_matches`: run the matchers in order and
surface the first failing reason. -/
def reqAttrMatches : List (EnrichedRequest → Bool × Str) → EnrichedRequest → Bool × Str
  | [], _ => (true, [])
  | m :: ms, req =>
    let vr := m req
    if vr.1 then reqAttrMatches ms req else (false, vr.2)

/-- Embeds `BaseResponse.matches`: method equality, then the URL check,
then every matcher. -/
def Responder.matches (r : Responder) (req : EnrichedRequest) : Bool × Str :=
  if req.method ≠ r.method then (false, "Method does not match".toList)
  else if ¬ urlMatches r.url req.url then (false, "URL does not match".toList)
  else reqAttrMatches r.matchList req

/-- Modelled from the spec: `FirstMatchRegistry.find` lives in
`responses/registries.py`, which is not among the sources here.  Per the
specification it performs a linear scan in registration order, returns the
first responder whose full match succeeds together with the mismatch
reason of every non-matching responder, and does not mutate the registry.
The returned index is the position of the match in registration order. -/
def findMatch (req : EnrichedRequest) : List Responder → Option (Nat × Responder) × List Str
  | [] => (none, [])
  | r :: rest =>
    let mr := r.matches req
    if mr.1 then (some (0, r), (findMatch req rest).2)
    else
      let fr := findMatch req rest
      (fr.1.map (fun p => (p.1 + 1, p.2)), mr.2 :: fr.2)

/-- A registered passthru prefix: a literal string prefix or a compiled
pattern modelled by its match predicate. -/
inductive PassthruEntry where
  | lit (p : Str)
  | regex (test : Str → Bool)

/-- Whether a passthru entry admits a request URL: literal prefixes use a
string prefix test, patterns a regex match (`_on_request`). -/
def passthruAdmits (url : Str) : PassthruEntry → Bool
  | .lit p => startsWith url p
  | .regex test => test url

/-- One entry of the call ledger (`Call`): the enriched request and the
reply it produced or the exception raised while producing it. -/
structure CallRecord where
  request : EnrichedRequest
  response : Except PyErr Resp

/-- The registry implementation installed on a mock: the default
`FirstMatchRegistry` or a custom class handed to `_set_registry`. -/
inductive RegistryKind where
  | firstMatch
  | custom (id : Nat)
deriving DecidableEq

/-- The mutable state of a `RequestsMock` instance. -/
structure MockState where
  registryKind : RegistryKind
  registry : List Responder
  calls : List CallRecord
  passthru_prefixes : List PassthruEntry
  assert_all_requests_are_fired : Bool
  response_callback : Option (Resp → Resp)
  target : Str
  patcher : Bool

/-- Embeds `RequestsMock.reset`: a fresh default registry, an empty ledger
and no passthru prefixes; everything else is untouched. -/
def MockState.reset (m : MockState) : MockState :=
  { m with registryKind := .firstMatch, registry := [], calls := [], passthru_prefixes := [] }

/-- Embeds `RequestsMock._set_registry`: refuses (AttributeError) while
responders are registered, otherwise installs a fresh registry of the
given class. -/
def MockState.setRegistry (m : MockState) (k : RegistryKind) : Except PyErr MockState :=
  if m.registry.isEmpty then .ok { m with registryKind := k, registry := [] }
  else .error .attributeError

/-! ### The dispatch algorithm (`RequestsMock._on_request`) -/

/-- Increment the call counter of the responder at a registry position. -/
def bumpCount : List Responder → Nat → List Responder
  | [], _ => []
  | r :: rest, 0 => { r with call_count := r.call_count + 1 } :: rest
  | r :: rest, i + 1 => r :: bumpCount rest i

/-- Apply the optional global response post-processing hook. -/
def applyCallback (cb : Option (Resp → Resp)) (r : Resp) : Resp :=
  match cb with
  | some f => f r
  | none => r

/-- Display of a URL pattern inside the no-match message (`str(m.url)`);
the repr of a compiled pattern is opaque in this model. -/
def UrlPattern.display : UrlPattern → Str
  | .str u => u
  | .regex _ => "re.compile(..)".toList

/-- Display of a passthru entry inside the no-match message. -/
def PassthruEntry.display : PassthruEntry → Str
  | .lit p => p
  | .regex _ => "re.compile(..)".toList

/-- Header of the connection-refused message of `_on_request`. -/
def noMatchHeader (req : EnrichedRequest) : Str :=
  "Connection refused by Responses - the call doesn".toList ++ [apos] ++
    "t match any registered mock.\n\nRequest: \n- ".toList ++
    req.method ++ " ".toList ++ req.url ++ "\n\nAvailable matches:\n".toList

/-- One line of the available-matches listing. -/
def matchLine (r : Responder) (reason : Str) : Str :=
  "- ".toList ++ r.method ++ " ".toList ++ r.url.display ++ " ".toList ++ reason ++ "\n".toList

/-- One line of the passthru-prefixes listing. -/
def passthruLine (p : PassthruEntry) : Str :=
  "- ".toList ++ p.display ++ "\n".toList

/-- The full connection-refused message: the header, one line per
registered responder with its mismatch reason, and the configured passthru
prefixes if any. -/
def noMatchMsg (req : EnrichedRequest) (registry : List Responder)
    (reasons : List Str) (prefixes : List PassthruEntry) : Str :=
  noMatchHeader req ++
    (List.zipWith matchLine registry reasons).flatten ++
    (if prefixes.isEmpty then []
     else "Passthru prefixes:\n".toList ++ (prefixes.map passthruLine).flatten)

/-- How one pass of the dispatch body ends. -/
inductive Outcome where
  | raised (e : PyErr)
  | passthru (r : Resp)
  | replied (r : Resp)

/-- One pass of the body of `_on_request`, up to but excluding the retry
evaluation: find a match; on no match either forward to the real transport
(when a passthru prefix admits the URL) or record and raise the
connection-refused error; on a match materialize the reply, incrementing
the call counter and appending exactly one ledger record on both the
success and the failure path.  `realSend` is the saved real transport
(`_real_send`). -/
def dispatchOnce (m : MockState) (realSend : EnrichedRequest → Resp)
    (req : EnrichedRequest) : MockState × Outcome :=
  let found := findMatch req m.registry
  match found.1 with
  | none =>
    if m.passthru_prefixes.any (passthruAdmits req.url) then
      (m, .passthru (realSend req))
    else
      let e := PyErr.connectionError (noMatchMsg req m.registry found.2 m.passthru_prefixes)
      ({ m with calls := m.calls ++ [⟨req, .error e⟩] }, .raised e)
  | some (i, r) =>
    match r.strategy with
    | .passthrough =>
      let resp := applyCallback m.response_callback (realSend req)
      ({ m with registry := bumpCount m.registry i,
                calls := m.calls ++ [⟨req, .ok resp⟩] }, .replied resp)
    | .reply f =>
      match f req with
      | .error e =>
        ({ m with registry := bumpCount m.registry i,
                  calls := m.calls ++ [⟨req, .error e⟩] }, .raised e)
      | .ok resp0 =>
        let resp := applyCallback m.response_callback resp0
        ({ m with registry := bumpCount m.registry i,
                  calls := m.calls ++ [⟨req, .ok resp⟩] }, .replied resp)

/-- The urllib3 retry policy at the boundary `_on_request` uses: the
eligibility predicate `is_retry` over method and status code, the
remaining retry budget consumed by `increment` (which raises
`MaxRetryError` when exhausted), and the `raise_on_status` flag. -/
structure Retry where
  remaining : Nat
  retryOn : Str → Nat → Bool
  raise_on_status : Bool

/-- The retry recursion of `_on_request`: after a reply is produced and
recorded, an eligible (method, status) pair with budget left increments
the policy and re-dispatches the same request; an eligible pair with the
budget exhausted re-raises `MaxRetryError` when `raise_on_status` is set
and otherwise returns the last reply. -/
def onRequestLoop (realSend : EnrichedRequest → Resp) (req : EnrichedRequest)
    (retryOn : Str → Nat → Bool) (ros : Bool) :
    Nat → MockState → MockState × Except PyErr Resp
  | 0, m =>
    match dispatchOnce m realSend req with
    | (m2, .raised e) => (m2, .error e)
    | (m2, .passthru r) => (m2, .ok r)
    | (m2, .replied r) =>
      if retryOn req.method r.status then
        if ros then (m2, .error .maxRetryError) else (m2, .ok r)
      else (m2, .ok r)
  | n + 1, m =>
    match dispatchOnce m realSend req with
    | (m2, .raised e) => (m2, .error e)
    | (m2, .passthru r) => (m2, .ok r)
    | (m2, .replied r) =>
      if retryOn req.method r.status then
        onRequestLoop realSend req retryOn ros n m2
      else (m2, .ok r)

/-- Embeds `RequestsMock._on_request`: enrich the request with the derived
params, then run the dispatch-and-retry loop with the caller-supplied
retry policy, falling back to the adapter default policy. -/
def onRequest (m : MockState) (realSend : EnrichedRequest → Resp)
    (method url : Str) (retries : Option Retry) (adapterMaxRetries : Retry) :
    MockState × Except PyErr Resp :=
  let req : EnrichedRequest := ⟨method, url, parseRequestParams (pathUrl url)⟩
  let r := retries.getD adapterMaxRetries
  onRequestLoop realSend req r.retryOn r.raise_on_status r.remaining m

/-! ### Activation teardown (`RequestsMock.stop`, `RequestsMock.__exit__`) -/

/-- The `unittest.mock` patcher boundary: stopping an installed patcher
removes the hook; stopping one that is not installed raises. -/
def patcherStop (installed : Bool) : Except PyErr Bool :=
  if installed then .ok false else .error .runtimeError

/-- Embeds `RequestsMock.stop`: remove the transport hook only when it is
installed (guarding the patcher against a second stop), then, when the
coverage flag is set and assertion is allowed, raise an `AssertionError`
naming the (method, url) of every responder with a zero call count. -/
def MockState.stop (m : MockState) (allow_assert : Bool) :
    MockState × Option (List (Str × UrlPattern)) :=
  match (if m.patcher then patcherStop m.patcher else .ok m.patcher) with
  | .error _ => (m, none)
  | .ok p =>
    let m := { m with patcher := p }
    if ¬ m.assert_all_requests_are_fired then (m, none)
    else if ¬ allow_assert then (m, none)
    else
      let not_called := m.registry.filter (fun r => r.call_count = 0)
      if not_called.isEmpty then (m, none)
      else (m, some (not_called.map (fun r => (r.method, r.url))))

/-- Whether the patcher teardown inside `stop` would raise: it calls
`patcherStop` exactly when the hook is recorded as installed. -/
def MockState.stopPatcherRaises (m : MockState) : Bool :=
  m.patcher && (patcherStop m.patcher).isOk = false

/-- Embeds `RequestsMock.__exit__`: assertion is allowed only when the
scope exited without an exception; a raised coverage assertion skips the
final reset. -/
def MockState.exitScope (m : MockState) (excRaised : Bool) :
    MockState × Option (List (Str × UrlPattern)) :=
  match m.stop (!excRaised) with
  | (m2, some e) => (m2, some e)
  | (m2, none) => (m2.reset, none)

/-! ### Auxiliary notions used by the statements -/

/-- The specification notion of a non-ASCII character: code point above
127.  The code instead tests `ord(char) > 128`, so the two disagree
exactly on code point 128. -/
def specHasNonAscii (s : Str) : Bool := s.any (fun c => 127 < c.toNat)

/-- Well-formed stream states: a closed `BytesIO` has discarded its buffer.
All states produced by `handle_body` and the stream operations satisfy
this. -/
def ByteStream.wf (s : ByteStream) : Prop := s.closed = true → s.buf = [] ∧ s.pos = 0

/-- The contribution of the last run of a key among the grouped query
pairs, the reference description proved equal to the dict the code
builds. -/
def lastRunValue (k : Str) : List (Str × List Str) → Option QVal
  | [] => none
  | (k2, vs) :: rest =>
    match lastRunValue k rest with
    | some v => some v
    | none => if k2 = k then some (runContribution vs) else none

/-! ### Helper lemmas -/

theorem dictGet_dictSet_eq (d : List (Str × QVal)) (k : Str) (v : QVal) :
    dictGet (dictSet d k v) k = some v := by
  induction d with
  | nil => simp [dictSet, dictGet]
  | cons h t ih =>
    obtain ⟨k2, v2⟩ := h
    by_cases hk : k2 = k
    · simp [dictSet, dictGet, hk]
    · simp [dictSet, dictGet, hk, ih]

theorem dictGet_dictSet_ne (d : List (Str × QVal)) (k k2 : Str) (v : QVal)
    (h : k2 ≠ k) : dictGet (dictSet d k2 v) k = dictGet d k := by
  induction d with
  | nil => simp [dictSet, dictGet, h]
  | cons hd t ih =>
    obtain ⟨k3, v3⟩ := hd
    by_cases hk : k3 = k2
    · subst hk
      simp [dictSet, dictGet, h]
    · simp [dictSet, dictGet, hk, ih]

theorem dictGet_foldl_runs (runs : List (Str × List Str)) (d : List (Str × QVal)) (k : Str) :
    dictGet (runs.foldl (fun params kv => dictSet params kv.1 (runContribution kv.2)) d) k
      = match lastRunValue k runs with
        | some v => some v
        | none => dictGet d k := by
  induction runs generalizing d with
  | nil => simp [lastRunValue]
  | cons hd t ih =>
    obtain ⟨k2, vs⟩ := hd
    rw [List.foldl_cons, ih]
    rcases hl : lastRunValue k t with _ | v
    · simp only [lastRunValue, hl]
      by_cases hk : k2 = k
      · subst hk
        simp [dictGet_dictSet_eq]
      · simp [hk, dictGet_dictSet_ne _ _ _ _ hk]
    · simp [lastRunValue, hl]

theorem groupRuns_key_mem (pairs : List (Str × Str)) (k : Str) (vs : List Str)
    (h : (k, vs) ∈ groupRuns pairs) : k ∈ pairs.map Prod.fst := by
  induction pairs generalizing vs with
  | nil => simp [groupRuns] at h
  | cons hd t ih =>
    obtain ⟨k1, v1⟩ := hd
    simp only [groupRuns] at h
    rcases hg : groupRuns t with _ | ⟨⟨k2, vs2⟩, gs⟩ <;> rw [hg] at h
    · have hk : k = k1 := congrArg Prod.fst (List.mem_singleton.mp h)
      simp [hk]
    · replace h : (k, vs) ∈
          (if k1 = k2 then (k1, v1 :: vs2) :: gs else (k1, [v1]) :: (k2, vs2) :: gs) := h
      by_cases hk : k1 = k2
      · rw [if_pos hk] at h
        rcases List.mem_cons.mp h with h1 | h1
        · have he : k = k1 := congrArg Prod.fst h1
          simp [he]
        · have hm : (k, vs) ∈ groupRuns t := by
            rw [hg]; exact List.mem_cons_of_mem _ h1
          simp only [List.map_cons, List.mem_cons]
          exact Or.inr (ih _ hm)
      · rw [if_neg hk] at h
        rcases List.mem_cons.mp h with h1 | h1
        · have he : k = k1 := congrArg Prod.fst h1
          simp [he]
        · have hm : (k, vs) ∈ groupRuns t := by rw [hg]; exact h1
          simp only [List.map_cons, List.mem_cons]
          exact Or.inr (ih _ hm)

theorem lastRunValue_none_of_not_mem (k : Str) (runs : List (Str × List Str))
    (h : ∀ vs, (k, vs) ∉ runs) : lastRunValue k runs = none := by
  induction runs with
  | nil => rfl
  | cons hd t ih =>
    obtain ⟨k2, vs2⟩ := hd
    have ht : ∀ vs, (k, vs) ∉ t := fun vs hm => h vs (List.mem_cons_of_mem _ hm)
    have hk : k2 ≠ k := by
      intro he
      exact h vs2 (by simp [he])
    simp only [lastRunValue, ih ht, if_neg hk]

theorem lastRunValue_cons (k k2 : Str) (vs : List Str) (rest : List (Str × List Str)) :
    lastRunValue k ((k2, vs) :: rest)
      = match lastRunValue k rest with
        | some v => some v
        | none => if k2 = k then some (runContribution vs) else none := rfl

theorem lastRunValue_of_unique (pairs : List (Str × Str)) (k v : Str)
    (h : pairs.filter (fun p => p.1 == k) = [(k, v)]) :
    lastRunValue k (groupRuns pairs) = some (.single v) := by
  induction pairs with
  | nil => simp at h
  | cons hd t ih =>
    obtain ⟨k1, v1⟩ := hd
    by_cases hk : k1 = k
    · rw [List.filter_cons_of_pos (by simp [hk])] at h
      have hv : v1 = v := congrArg Prod.snd (List.head_eq_of_cons_eq h)
      have hrest : t.filter (fun p => p.1 == k) = [] := List.tail_eq_of_cons_eq h
      have hnot : ∀ p ∈ t, p.1 ≠ k := by
        intro p hp he
        have : p ∈ t.filter (fun p => p.1 == k) := List.mem_filter.mpr ⟨hp, by simp [he]⟩
        simp [hrest] at this
      subst hk
      subst hv
      rcases hg : groupRuns t with _ | ⟨⟨k2, vs2⟩, gs⟩
      · simp [groupRuns, hg, lastRunValue, runContribution]
      · have hk2 : k1 ≠ k2 := by
          intro he
          have hmem : (k2, vs2) ∈ groupRuns t := by rw [hg]; exact List.mem_cons_self _ _
          exact (List.mem_map.mp (groupRuns_key_mem t k2 vs2 hmem)).elim
            (fun p hp => hnot p hp.1 (he ▸ hp.2))
        have hnone : lastRunValue k1 ((k2, vs2) :: gs) = none := by
          apply lastRunValue_none_of_not_mem
          intro vs hm
          have hmem : (k1, vs) ∈ groupRuns t := by rw [hg]; exact hm
          exact (List.mem_map.mp (groupRuns_key_mem t k1 vs hmem)).elim
            (fun p hp => hnot p hp.1 hp.2)
        simp only [groupRuns, hg, if_neg hk2]
        rw [lastRunValue_cons, hnone]
        simp [runContribution]
    · rw [List.filter_cons_of_neg (by simp [hk])] at h
      have iht := ih h
      rcases hg : groupRuns t with _ | ⟨⟨k2, vs2⟩, gs⟩
      · rw [hg] at iht
        simp [lastRunValue] at iht
      · rw [hg] at iht
        by_cases hk12 : k1 = k2
        · have hgs : lastRunValue k gs = some (.single v) := by
            have hne : k2 ≠ k := by rw [← hk12]; exact hk
            rw [lastRunValue_cons] at iht
            rcases hgs2 : lastRunValue k gs with _ | w <;> rw [hgs2] at iht
            · simp [if_neg hne] at iht
            · simpa using iht
          simp only [groupRuns, hg, if_pos hk12]
          rw [lastRunValue_cons, hgs]
        · simp only [groupRuns, hg, if_neg hk12]
          rw [lastRunValue_cons, iht]

/-! ### Dispatch lemmas -/

theorem findMatch_spec (req : EnrichedRequest) (reg : List Responder) (i : Nat) (R : Responder)
    (h : (findMatch req reg).1 = some (i, R)) :
    reg.get? i = some R ∧ (R.matches req).1 = true
      ∧ ∀ j r2, j < i → reg.get? j = some r2 → (r2.matches req).1 = false := by
  induction reg generalizing i with
  | nil => simp [findMatch] at h
  | cons hd t ih =>
    by_cases hm : (hd.matches req).1 = true
    · simp only [findMatch, if_pos hm] at h
      obtain ⟨hi, hR⟩ := Prod.mk.injEq .. ▸ Option.some.inj h
      subst hi
      subst hR
      exact ⟨rfl, hm, fun j r2 hj => absurd hj (Nat.not_lt_zero j)⟩
    · simp only [findMatch, if_neg hm] at h
      rcases hx : (findMatch req t).1 with _ | ⟨i0, R0⟩ <;> rw [hx] at h
      · simp at h
      · simp only [Option.map] at h
        obtain ⟨hi, hR⟩ := Prod.mk.injEq .. ▸ Option.some.inj h
        subst hR
        subst hi
        obtain ⟨hg, hms, hlt⟩ := ih i0 hx
        refine ⟨hg, hms, ?_⟩
        intro j r2 hj hgj
        cases j with
        | zero =>
          cases Option.some.inj hgj
          simpa using hm
        | succ j2 =>
          exact hlt j2 r2 (Nat.lt_of_succ_lt_succ hj) hgj

theorem findMatch_first (req : EnrichedRequest) (reg : List Responder) (j : Nat) (Rj : Responder)
    (hj : reg.get? j = some Rj) (hm : (Rj.matches req).1 = true) :
    ∃ i R, (findMatch req reg).1 = some (i, R) ∧ i ≤ j := by
  induction reg generalizing j with
  | nil => simp at hj
  | cons hd t ih =>
    by_cases hhd : (hd.matches req).1 = true
    · exact ⟨0, hd, by simp [findMatch, hhd], Nat.zero_le _⟩
    · cases j with
      | zero =>
        cases Option.some.inj hj
        exact absurd hm hhd
      | succ j2 =>
        obtain ⟨i0, R0, hx, hle⟩ := ih j2 hj
        exact ⟨i0 + 1, R0, by simp [findMatch, hhd, hx], Nat.succ_le_succ hle⟩

theorem bumpCount_get? (reg : List Responder) (i j : Nat) :
    (bumpCount reg i).get? j
      = if j = i then (reg.get? j).map (fun r => { r with call_count := r.call_count + 1 })
        else reg.get? j := by
  induction reg generalizing i j with
  | nil => cases i <;> cases j <;> simp [bumpCount]
  | cons hd t ih =>
    cases i with
    | zero =>
      cases j with
      | zero => simp [bumpCount]
      | succ j2 => simp [bumpCount]
    | succ i2 =>
      cases j with
      | zero => simp [bumpCount]
      | succ j2 => simpa [bumpCount, Nat.succ_eq_add_one] using ih i2 j2

theorem bumpCount_length (reg : List Responder) (i : Nat) :
    (bumpCount reg i).length = reg.length := by
  induction reg generalizing i with
  | nil => rfl
  | cons hd t ih => cases i <;> simp [bumpCount, ih]

theorem bumpCount_count_at (reg : List Responder) (i : Nat) :
    ((bumpCount reg i).get? i).map Responder.call_count
      = (reg.get? i).map (fun r => r.call_count + 1) := by
  rw [bumpCount_get?, if_pos rfl]
  cases reg.get? i <;> rfl

theorem bumpCount_count_ne (reg : List Responder) (i j : Nat) (h : j ≠ i) :
    (bumpCount reg i).get? j = reg.get? j := by
  rw [bumpCount_get?, if_neg h]

theorem dispatchOnce_reply_eq (m : MockState) (realSend : EnrichedRequest → Resp)
    (req : EnrichedRequest) (i : Nat) (R : Responder) (f : EnrichedRequest → Except PyErr Resp)
    (hfind : (findMatch req m.registry).1 = some (i, R))
    (hstrat : R.strategy = .reply f) :
    dispatchOnce m realSend req
      = match f req with
        | .error e =>
          ({ m with registry := bumpCount m.registry i,
                    calls := m.calls ++ [⟨req, .error e⟩] }, .raised e)
        | .ok resp0 =>
          ({ m with registry := bumpCount m.registry i,
                    calls := m.calls ++ [⟨req, .ok (applyCallback m.response_callback resp0)⟩] },
           .replied (applyCallback m.response_callback resp0)) := by
  rcases hfr : f req with e | resp0 <;> simp [dispatchOnce, hfind, hstrat, hfr]

theorem dispatchOnce_registry_cases (m : MockState) (realSend : EnrichedRequest → Resp)
    (req : EnrichedRequest) :
    (dispatchOnce m realSend req).1.registry = m.registry
    ∨ ∃ i, (dispatchOnce m realSend req).1.registry = bumpCount m.registry i := by
  rcases hf : (findMatch req m.registry).1 with _ | ⟨i, r⟩
  · by_cases hp : m.passthru_prefixes.any (passthruAdmits req.url) = true
    · left
      simp [dispatchOnce, hf, hp]
    · left
      simp [dispatchOnce, hf, hp]
  · rcases hs : r.strategy with _ | f
    · right
      exact ⟨i, by simp [dispatchOnce, hf, hs]⟩
    · rcases hfr : f req with e | resp0
      · right
        exact ⟨i, by simp [dispatchOnce, hf, hs, hfr]⟩
      · right
        exact ⟨i, by simp [dispatchOnce, hf, hs, hfr]⟩

theorem dispatchOnce_count_mono (m : MockState) (realSend : EnrichedRequest → Resp)
    (req : EnrichedRequest) (j : Nat) (r0 : Responder)
    (h : m.registry.get? j = some r0) :
    ∃ r2, (dispatchOnce m realSend req).1.registry.get? j = some r2
      ∧ r0.call_count ≤ r2.call_count := by
  rcases dispatchOnce_registry_cases m realSend req with hr | ⟨i, hr⟩
  · exact ⟨r0, by rw [hr, h], Nat.le_refl _⟩
  · rw [hr, bumpCount_get?]
    by_cases hij : j = i
    · rw [if_pos hij, h]
      exact ⟨{ r0 with call_count := r0.call_count + 1 }, rfl, Nat.le_succ _⟩
    · rw [if_neg hij, h]
      exact ⟨r0, rfl, Nat.le_refl _⟩

theorem onRequestLoop_count_mono (realSend : EnrichedRequest → Resp) (req : EnrichedRequest)
    (retryOn : Str → Nat → Bool) (ros : Bool) (n : Nat) (m : MockState) (j : Nat)
    (r0 : Responder) (h : m.registry.get? j = some r0) :
    ∃ r2, (onRequestLoop realSend req retryOn ros n m).1.registry.get? j = some r2
      ∧ r0.call_count ≤ r2.call_count := by
  induction n generalizing m r0 with
  | zero =>
    obtain ⟨r2, hr2, hle⟩ := dispatchOnce_count_mono m realSend req j r0 h
    rcases hd : dispatchOnce m realSend req with ⟨m2, oc⟩
    rw [hd] at hr2
    rcases oc with e | r | r <;> simp only [onRequestLoop, hd]
    · exact ⟨r2, hr2, hle⟩
    · exact ⟨r2, hr2, hle⟩
    · by_cases hro : retryOn req.method r.status = true
      · rw [if_pos hro]
        have h1 : (if ros then ((m2, Except.error PyErr.maxRetryError) :
              MockState × Except PyErr Resp) else (m2, Except.ok r)).1 = m2 := by
          cases ros <;> rfl
        rw [h1]
        exact ⟨r2, hr2, hle⟩
      · rw [if_neg hro]
        exact ⟨r2, hr2, hle⟩
  | succ n2 ih =>
    obtain ⟨r2, hr2, hle⟩ := dispatchOnce_count_mono m realSend req j r0 h
    rcases hd : dispatchOnce m realSend req with ⟨m2, oc⟩
    rw [hd] at hr2
    rcases oc with e | r | r <;> simp only [onRequestLoop, hd]
    · exact ⟨r2, hr2, hle⟩
    · exact ⟨r2, hr2, hle⟩
    · by_cases hro : retryOn req.method r.status = true
      · rw [if_pos hro]
        obtain ⟨r3, hr3, hle3⟩ := ih m2 r2 hr2
        exact ⟨r3, hr3, Nat.le_trans hle hle3⟩
      · rw [if_neg hro]
        exact ⟨r2, hr2, hle⟩

theorem onRequestLoop_no_retry (realSend : EnrichedRequest → Resp) (req : EnrichedRequest)
    (ros : Bool) (n : Nat) (m : MockState) :
    onRequestLoop realSend req (fun _ _ => false) ros n m
      = match dispatchOnce m realSend req with
        | (m2, .raised e) => (m2, .error e)
        | (m2, .passthru r) => (m2, .ok r)
        | (m2, .replied r) => (m2, .ok r) := by
  rcases hd : dispatchOnce m realSend req with ⟨m2, oc⟩
  cases n <;> rcases oc with e | r | r <;> simp [onRequestLoop, hd]

theorem mem_zipWith_of_mem_zip {α β γ : Type} (f : α → β → γ) (l1 : List α) (l2 : List β)
    (a : α) (b : β) (h : (a, b) ∈ List.zip l1 l2) : f a b ∈ List.zipWith f l1 l2 := by
  induction l1 generalizing l2 with
  | nil => simp [List.zip] at h
  | cons hd t ih =>
    cases l2 with
    | nil => simp [List.zip] at h
    | cons hd2 t2 =>
      rcases List.mem_cons.mp h with h1 | h1
      · obtain ⟨ha, hb⟩ := Prod.mk.injEq .. ▸ h1
        subst ha
        subst hb
        exact List.mem_cons_self _ _
      · exact List.mem_cons_of_mem _ (ih t2 h1)

/-! ### Claim C1 -/

/-- C1: one dispatch of a request matched by a non-passthrough responder,
under a retry policy that never replays, increments exactly that
responder's call counter by one and appends exactly one ledger record,
both when the materialization succeeds and when it raises (the failure is
recorded and re-raised after the increment); and no dispatch under any
retry policy ever decreases a call counter. -/
theorem c1_dispatch_counts (m : MockState) (realSend : EnrichedRequest → Resp)
    (req : EnrichedRequest) (ros : Bool) (n i : Nat) (R : Responder)
    (f : EnrichedRequest → Except PyErr Resp)
    (hfind : (findMatch req m.registry).1 = some (i, R))
    (hstrat : R.strategy = .reply f) :
    (((onRequestLoop realSend req (fun _ _ => false) ros n m).1.registry.get? i).map
        Responder.call_count = (m.registry.get? i).map (fun r => r.call_count + 1))
    ∧ (∀ j, j ≠ i →
        (onRequestLoop realSend req (fun _ _ => false) ros n m).1.registry.get? j
          = m.registry.get? j)
    ∧ ((onRequestLoop realSend req (fun _ _ => false) ros n m).1.calls.length
        = m.calls.length + 1)
    ∧ (∀ e, f req = .error e →
        onRequestLoop realSend req (fun _ _ => false) ros n m
          = ({ m with registry := bumpCount m.registry i,
                      calls := m.calls ++ [⟨req, .error e⟩] }, .error e))
    ∧ (∀ resp0, f req = .ok resp0 →
        onRequestLoop realSend req (fun _ _ => false) ros n m
          = ({ m with registry := bumpCount m.registry i,
                      calls := m.calls ++
                        [⟨req, .ok (applyCallback m.response_callback resp0)⟩] },
             .ok (applyCallback m.response_callback resp0)))
    ∧ (∀ (retryOn2 : Str → Nat → Bool) (ros2 : Bool) (n2 j : Nat) (r0 : Responder),
        m.registry.get? j = some r0 →
        ∃ r2, (onRequestLoop realSend req retryOn2 ros2 n2 m).1.registry.get? j = some r2
          ∧ r0.call_count ≤ r2.call_count) := by
  have hde := dispatchOnce_reply_eq m realSend req i R f hfind hstrat
  rcases hfr : f req with e | resp0 <;> rw [hfr] at hde
  · have hl : onRequestLoop realSend req (fun _ _ => false) ros n m
        = ({ m with registry := bumpCount m.registry i,
                    calls := m.calls ++ [⟨req, .error e⟩] }, .error e) := by
      rw [onRequestLoop_no_retry, hde]
    refine ⟨?_, ?_, ?_, ?_, ?_, ?_⟩
    · rw [hl]
      exact bumpCount_count_at m.registry i
    · intro j hj
      rw [hl]
      exact bumpCount_count_ne m.registry i j hj
    · rw [hl]
      simp
    · intro e2 he2
      cases he2
      exact hl
    · intro resp0 hr0
      exact absurd hr0 (by simp)
    · intro retryOn2 ros2 n2 j r0 h0
      exact onRequestLoop_count_mono realSend req retryOn2 ros2 n2 m j r0 h0
  · have hl : onRequestLoop realSend req (fun _ _ => false) ros n m
        = ({ m with registry := bumpCount m.registry i,
                    calls := m.calls ++
                      [⟨req, .ok (applyCallback m.response_callback resp0)⟩] },
           .ok (applyCallback m.response_callback resp0)) := by
      rw [onRequestLoop_no_retry, hde]
    refine ⟨?_, ?_, ?_, ?_, ?_, ?_⟩
    · rw [hl]
      exact bumpCount_count_at m.registry i
    · intro j hj
      rw [hl]
      exact bumpCount_count_ne m.registry i j hj
    · rw [hl]
      simp
    · intro e2 he2
      exact absurd he2 (by simp)
    · intro resp2 hr2
      cases hr2
      exact hl
    · intro retryOn2 ros2 n2 j r0 h0
      exact onRequestLoop_count_mono realSend req retryOn2 ros2 n2 m j r0 h0

/-- Concrete responder for the C1 witness. -/
def c1resp : Responder :=
  ⟨"GET".toList, .str "http://example.com/".toList, [],
    .reply (fun _ => .ok ⟨200, []⟩), 0⟩

/-- Concrete mock state for the C1 witness. -/
def c1mock : MockState :=
  ⟨.firstMatch, [c1resp], [], [], true, none, [], true⟩

/-- Concrete request for the C1 witness. -/
def c1req : EnrichedRequest := ⟨"GET".toList, "http://example.com/".toList, []⟩

/-- Witness for C1: dispatching a concrete matched request bumps the call
counter of the matched responder. -/
theorem c1_dispatch_counts_witness :
    ((onRequestLoop (fun _ => ⟨200, []⟩) c1req (fun _ _ => false) false 3 c1mock).1.registry.get?
        0).map Responder.call_count
      = (c1mock.registry.get? 0).map (fun r => r.call_count + 1) :=
  (c1_dispatch_counts c1mock (fun _ => ⟨200, []⟩) c1req false 3 0 c1resp
    (fun _ => .ok ⟨200, []⟩) rfl rfl).1

/-! ### Claim C2 -/

/-- C2: the registry lookup returns the first responder, in registration
order, whose full match succeeds — any earlier entry fails to match, and
the existence of any matching entry guarantees a chosen index no later
than it — and dispatch neither removes nor alters any registry entry
except for incrementing the call counter of the chosen one: length,
methods, urls, matchers and strategies are all preserved. -/
theorem c2_first_match (reg : List Responder) (req : EnrichedRequest) :
    (∀ i R, (findMatch req reg).1 = some (i, R) →
      reg.get? i = some R ∧ (R.matches req).1 = true
        ∧ ∀ j r2, j < i → reg.get? j = some r2 → (r2.matches req).1 = false)
    ∧ (∀ j Rj, reg.get? j = some Rj → (Rj.matches req).1 = true →
        ∃ i R, (findMatch req reg).1 = some (i, R) ∧ i ≤ j)
    ∧ (∀ (m : MockState) (realSend : EnrichedRequest → Resp), m.registry = reg →
        (dispatchOnce m realSend req).1.registry.length = reg.length
        ∧ (∀ j r0, reg.get? j = some r0 →
            ∃ r2, (dispatchOnce m realSend req).1.registry.get? j = some r2
              ∧ r2.method = r0.method ∧ r2.url = r0.url
              ∧ r2.matchList = r0.matchList ∧ r2.strategy = r0.strategy)
        ∧ (∀ i R f resp0, (findMatch req reg).1 = some (i, R) → R.strategy = .reply f →
            f req = .ok resp0 →
            (dispatchOnce m realSend req).2
              = .replied (applyCallback m.response_callback resp0))) := by
  refine ⟨fun i R h => findMatch_spec req reg i R h,
    fun j Rj hj hm => findMatch_first req reg j Rj hj hm, ?_⟩
  intro m realSend hreg
  subst hreg
  refine ⟨?_, ?_, ?_⟩
  · rcases dispatchOnce_registry_cases m realSend req with hr | ⟨i, hr⟩ <;> rw [hr]
    exact bumpCount_length _ _
  · intro j r0 h0
    rcases dispatchOnce_registry_cases m realSend req with hr | ⟨i, hr⟩ <;> rw [hr]
    · exact ⟨r0, h0, rfl, rfl, rfl, rfl⟩
    · rw [bumpCount_get?]
      by_cases hij : j = i
      · rw [if_pos hij, h0]
        exact ⟨_, rfl, rfl, rfl, rfl, rfl⟩
      · rw [if_neg hij, h0]
        exact ⟨r0, rfl, rfl, rfl, rfl, rfl⟩
  · intro i R f resp0 hfind hstrat hok
    rw [dispatchOnce_reply_eq m realSend req i R f hfind hstrat, hok]

/-- Concrete earlier responder for the C2 witness. -/
def c2respA : Responder :=
  ⟨"GET".toList, .str "http://example.com/".toList, [],
    .reply (fun _ => .ok ⟨201, []⟩), 0⟩

/-- Concrete later responder for the C2 witness, matching the same
request. -/
def c2respB : Responder :=
  ⟨"GET".toList, .str "http://example.com/".toList, [],
    .reply (fun _ => .ok ⟨202, []⟩), 0⟩

/-- Concrete request for the C2 witness. -/
def c2req : EnrichedRequest := ⟨"GET".toList, "http://example.com/".toList, []⟩

/-- Witness for C2: with two responders both matching, the lookup chooses
the one registered first. -/
theorem c2_first_match_witness :
    [c2respA, c2respB].get? 0 = some c2respA ∧ (c2respA.matches c2req).1 = true :=
  ⟨((c2_first_match [c2respA, c2respB] c2req).1 0 c2respA rfl).1,
   ((c2_first_match [c2respA, c2respB] c2req).1 0 c2respA rfl).2.1⟩

/-! ### Claim C3 -/

/-- Concrete mock state for the C3 counterexample: one responder that will
not match, plus one passthru prefix that admits the request. -/
def c3mock : MockState :=
  ⟨.firstMatch,
    [⟨"GET".toList, .str "http://example.com/".toList, [],
      .reply (fun _ => .ok ⟨200, []⟩), 0⟩],
    [], [.lit "http://other.com".toList], true, none, [], true⟩

/-- Concrete request for the C3 counterexample. -/
def c3req : EnrichedRequest := ⟨"GET".toList, "http://other.com/x".toList, []⟩

/-- Concrete real transport for the C3 counterexample. -/
def c3send : EnrichedRequest → Resp := fun _ => ⟨200, [7]⟩

/-- C3 counterexample: a request that no responder matches but a passthru
prefix admits is forwarded and returned, yet the ledger stays empty — the
passthru-prefix branch of `_on_request` returns without recording a call,
contrary to the claim. -/
theorem c3_passthru_counterexample :
    (dispatchOnce c3mock c3send c3req).2 = Outcome.passthru (c3send c3req)
    ∧ (dispatchOnce c3mock c3send c3req).1.calls = [] :=
  ⟨rfl, rfl⟩

/-- C3 (amended): when no responder matches, a request whose URL some
passthru prefix admits is forwarded to the real transport and its result
returned without touching the ledger or any call counter; otherwise a
ConnectionError is raised whose message carries one line per registered
responder with its mismatch reason and one line per configured passthru
prefix, exactly one record holding that failure is appended, and the
registry (hence every call counter) is unchanged. -/
theorem c3_no_match_dispatch (m : MockState) (realSend : EnrichedRequest → Resp)
    (req : EnrichedRequest) (rs : List Str)
    (hfind : findMatch req m.registry = (none, rs)) :
    (m.passthru_prefixes.any (passthruAdmits req.url) = true →
      dispatchOnce m realSend req = (m, .passthru (realSend req)))
    ∧ (m.passthru_prefixes.any (passthruAdmits req.url) = false →
      dispatchOnce m realSend req
        = ({ m with calls := m.calls ++
              [⟨req, .error (.connectionError
                  (noMatchMsg req m.registry rs m.passthru_prefixes))⟩] },
           .raised (.connectionError (noMatchMsg req m.registry rs m.passthru_prefixes)))
      ∧ (∀ r reason, (r, reason) ∈ List.zip m.registry rs →
          (matchLine r reason) <:+: noMatchMsg req m.registry rs m.passthru_prefixes)
      ∧ (∀ p ∈ m.passthru_prefixes,
          (passthruLine p) <:+: noMatchMsg req m.registry rs m.passthru_prefixes)) := by
  have h1 : (findMatch req m.registry).1 = none := by rw [hfind]
  have h2 : (findMatch req m.registry).2 = rs := by rw [hfind]
  constructor
  · intro hp
    simp [dispatchOnce, h1, hp]
  · intro hp
    refine ⟨by simp [dispatchOnce, h1, h2, hp], ?_, ?_⟩
    · intro r reason hmem
      have hline : matchLine r reason ∈ List.zipWith matchLine m.registry rs :=
        mem_zipWith_of_mem_zip matchLine m.registry rs r reason hmem
      have hflat : matchLine r reason <:+: (List.zipWith matchLine m.registry rs).flatten :=
        List.infix_of_mem_flatten hline
      refine hflat.trans ?_
      exact ⟨noMatchHeader req,
        (if m.passthru_prefixes.isEmpty then []
         else "Passthru prefixes:\n".toList ++ (m.passthru_prefixes.map passthruLine).flatten),
        by simp [noMatchMsg, List.append_assoc]⟩
    · intro p hp2
      have hline : passthruLine p ∈ m.passthru_prefixes.map passthruLine :=
        List.mem_map_of_mem passthruLine hp2
      have hflat : passthruLine p <:+: (m.passthru_prefixes.map passthruLine).flatten :=
        List.infix_of_mem_flatten hline
      have hne : m.passthru_prefixes.isEmpty = false := by
        cases hpp : m.passthru_prefixes with
        | nil => rw [hpp] at hp2; simp at hp2
        | cons a t => rfl
      refine hflat.trans ?_
      refine List.IsInfix.trans ?_
        (⟨noMatchHeader req ++ (List.zipWith matchLine m.registry rs).flatten, [],
          by simp [noMatchMsg, hne]⟩ :
          ("Passthru prefixes:\n".toList ++ (m.passthru_prefixes.map passthruLine).flatten)
            <:+: noMatchMsg req m.registry rs m.passthru_prefixes)
      exact ⟨"Passthru prefixes:\n".toList, [], by simp⟩

/-- Witness for C3: the concrete passthru dispatch of the counterexample
state, derived through the amended theorem. -/
theorem c3_no_match_dispatch_witness :
    dispatchOnce c3mock c3send c3req = (c3mock, .passthru (c3send c3req)) :=
  (c3_no_match_dispatch c3mock c3send c3req ["URL does not match".toList] rfl).1 rfl

/-! ### Claim C4 -/

/-- C4: after a reply is produced and recorded, an eligible (method,
status) pair with retries remaining increments the retry policy and
re-dispatches the same request with the smaller budget; with the budget
exhausted, incrementing raises `MaxRetryError`, which is re-raised when
`raise_on_status` is set and otherwise the last reply is returned. -/
theorem c4_retry_policy (m m2 : MockState) (realSend : EnrichedRequest → Resp)
    (req : EnrichedRequest) (retryOn : Str → Nat → Bool) (ros : Bool) (n : Nat) (r : Resp)
    (hd : dispatchOnce m realSend req = (m2, .replied r))
    (hr : retryOn req.method r.status = true) :
    (onRequestLoop realSend req retryOn ros (n + 1) m
      = onRequestLoop realSend req retryOn ros n m2)
    ∧ (ros = true → onRequestLoop realSend req retryOn ros 0 m = (m2, .error .maxRetryError))
    ∧ (ros = false → onRequestLoop realSend req retryOn ros 0 m = (m2, .ok r)) := by
  refine ⟨?_, ?_, ?_⟩
  · simp only [onRequestLoop, hd]
    rw [if_pos hr]
  · intro hros
    subst hros
    simp only [onRequestLoop, hd]
    rw [if_pos hr]
    simp
  · intro hros
    subst hros
    simp only [onRequestLoop, hd]
    rw [if_pos hr]
    simp

/-- Concrete responder for the C4 witness, always replying 500. -/
def c4resp : Responder :=
  ⟨"GET".toList, .str "http://example.com/".toList, [],
    .reply (fun _ => .ok ⟨500, []⟩), 0⟩

/-- Concrete mock state for the C4 witness. -/
def c4mock : MockState := ⟨.firstMatch, [c4resp], [], [], false, none, [], true⟩

/-- Concrete request for the C4 witness. -/
def c4req : EnrichedRequest := ⟨"GET".toList, "http://example.com/".toList, []⟩

/-- The mock state after the first C4 dispatch: counter bumped, one
record appended. -/
def c4after : MockState :=
  { c4mock with
    registry := bumpCount c4mock.registry 0
    calls := c4mock.calls ++ [⟨c4req, Except.ok ⟨500, []⟩⟩] }

/-- Witness for C4: with the budget exhausted and `raise_on_status` set,
the dispatch of an eligible 500 reply propagates `MaxRetryError`. -/
theorem c4_retry_policy_witness :
    onRequestLoop (fun _ => ⟨200, []⟩) c4req (fun _ s => s == 500) true 0 c4mock
      = (c4after, .error .maxRetryError) :=
  (c4_retry_policy c4mock c4after (fun _ => ⟨200, []⟩) c4req (fun _ s => s == 500)
    true 0 ⟨500, []⟩ rfl rfl).2.1 rfl

/-! ### Claim C5 -/

theorem stop_patcher_ok (m : MockState) :
    (if m.patcher then patcherStop m.patcher else Except.ok m.patcher) = .ok false := by
  by_cases hp : m.patcher = true
  · rw [if_pos hp]
    unfold patcherStop
    rw [if_pos hp]
  · rw [if_neg hp]
    simp only [Bool.not_eq_true] at hp
    rw [hp]

theorem stop_eq (m : MockState) (b : Bool) :
    m.stop b
      = (if ¬ m.assert_all_requests_are_fired then ({ m with patcher := false }, none)
         else if ¬ b then ({ m with patcher := false }, none)
         else if (m.registry.filter (fun r => r.call_count = 0)).isEmpty then
           ({ m with patcher := false }, none)
         else
           ({ m with patcher := false },
            some ((m.registry.filter (fun r => r.call_count = 0)).map
              (fun r => (r.method, r.url))))) := by
  unfold MockState.stop
  rw [stop_patcher_ok]

/-- C5: with the coverage flag set, stop with assertion allowed raises an
AssertionError naming exactly the responders never matched when at least
one exists and raises nothing when every responder was matched at least
once; the assertion is skipped when the scope exited with a failure; the
patcher teardown never raises, and after one stop the hook is already
removed so a second stop skips it. -/
theorem c5_stop_coverage (m : MockState) (b : Bool)
    (ha : m.assert_all_requests_are_fired = true) :
    ((m.registry.filter (fun r => r.call_count = 0)).isEmpty = false →
      (m.stop true).2
        = some ((m.registry.filter (fun r => r.call_count = 0)).map
            (fun r => (r.method, r.url))))
    ∧ ((∀ r ∈ m.registry, 1 ≤ r.call_count) → (m.stop true).2 = none)
    ∧ ((m.stop false).2 = none)
    ∧ ((m.exitScope true).2 = none)
    ∧ ((m.stop b).1.patcher = false ∧ m.stopPatcherRaises = false
        ∧ ((m.stop b).1).stopPatcherRaises = false
        ∧ ((m.stop b).1.stop b).1.patcher = false) := by
  have hstop : ∀ m2 : MockState, m2.stopPatcherRaises = false := by
    intro m2
    unfold MockState.stopPatcherRaises patcherStop
    by_cases hp : m2.patcher = true
    · rw [hp, if_pos rfl]
      rfl
    · simp only [Bool.not_eq_true] at hp
      rw [hp]
      rfl
  refine ⟨?_, ?_, ?_, ?_, ?_, hstop m, hstop _, ?_⟩
  · intro hne
    rw [stop_eq]
    rw [if_neg (by rw [ha]; simp), if_neg (by simp), if_neg (by rw [hne]; simp)]
  · intro hall
    have hnil : m.registry.filter (fun r => r.call_count = 0) = [] := by
      rw [List.filter_eq_nil_iff]
      intro r hr
      have := hall r hr
      simp
      omega
    rw [stop_eq, if_neg (by rw [ha]; simp), if_neg (by simp), if_pos (by rw [hnil]; rfl)]
  · rw [stop_eq]
    by_cases hf : m.assert_all_requests_are_fired = true
    · rw [if_neg (by rw [hf]; simp), if_pos (by simp)]
    · rw [if_pos (by simp [hf])]
  · unfold MockState.exitScope
    have h2 : (m.stop false).2 = none := by
      rw [stop_eq]
      by_cases hf : m.assert_all_requests_are_fired = true
      · rw [if_neg (by rw [hf]; simp), if_pos (by simp)]
      · rw [if_pos (by simp [hf])]
    rcases hs : m.stop (!true) with ⟨m2, e⟩
    simp only [Bool.not_true] at hs
    rw [hs] at h2
    simp only at h2
    subst h2
    rfl
  · rw [stop_eq]
    by_cases hf : m.assert_all_requests_are_fired = true <;>
      by_cases hb : b = true <;>
        by_cases hfilter : (m.registry.filter (fun r => r.call_count = 0)).isEmpty = true <;>
          simp [hf, hb, hfilter]
  · rw [stop_eq]
    by_cases hf : m.assert_all_requests_are_fired = true <;>
      by_cases hb : b = true <;>
        by_cases hfilter : (m.registry.filter (fun r => r.call_count = 0)).isEmpty = true <;>
          simp [stop_eq, hf, hb, hfilter]

/-- Concrete never-matched responder for the C5 witness. -/
def c5respA : Responder :=
  ⟨"GET".toList, .str "http://a/".toList, [], .reply (fun _ => .ok ⟨200, []⟩), 0⟩

/-- Concrete matched responder for the C5 witness. -/
def c5respB : Responder :=
  ⟨"GET".toList, .str "http://b/".toList, [], .reply (fun _ => .ok ⟨200, []⟩), 1⟩

/-- Concrete mock state for the C5 witness. -/
def c5mock : MockState := ⟨.firstMatch, [c5respA, c5respB], [], [], true, none, [], true⟩

/-- Witness for C5: stopping with one never-matched responder names
exactly that responder. -/
theorem c5_stop_coverage_witness :
    (c5mock.stop true).2 = some [("GET".toList, UrlPattern.str "http://a/".toList)] := by
  have h := (c5_stop_coverage c5mock true rfl).1 (by decide)
  rw [h]
  rfl

/-! ### Claim C6 -/

theorem splitScheme_snd_sublist (s : Str) : (splitScheme s).2.Sublist s := by
  unfold splitScheme
  rcases h : s.findIdx? (· = ':') with _ | i
  · exact List.Sublist.refl s
  · dsimp only
    split
    · exact List.drop_sublist _ _
    · exact List.Sublist.refl s

theorem netlocSplit_fst_sublist (l : Str) : (netlocSplit l).1.Sublist l := by
  unfold netlocSplit
  split
  · exact (List.takeWhile_sublist _).trans
      ((List.sublist_cons_self _ _).trans (List.sublist_cons_self _ _))
  · exact List.nil_sublist _

theorem urlsplit_netloc_sublist (u : Str) : (urlsplit u).netloc.Sublist u := by
  have h1 : (urlsplit u).netloc = (netlocSplit (splitScheme u).2).1 := rfl
  rw [h1]
  exact (netlocSplit_fst_sublist _).trans (splitScheme_snd_sublist u)

theorem hasUnicode_false_of_sublist {l1 l2 : Str} (h : l1.Sublist l2)
    (h2 : hasUnicode l2 = false) : hasUnicode l1 = false := by
  unfold hasUnicode at h2 ⊢
  rw [List.any_eq_false] at h2 ⊢
  intro c hc
  exact h2 c (h.subset hc)

theorem flatMap_quote_id (u : Str) (h : ∀ c ∈ u, ¬ 128 < c.toNat) :
    u.flatMap (fun c => if 128 < c.toNat then quoteChar c else [c]) = u := by
  induction u with
  | nil => rfl
  | cons c t ih =>
    have hc := h c (List.mem_cons_self c t)
    rw [show ((c :: t).flatMap (fun c => if 128 < c.toNat then quoteChar c else [c]))
        = (if 128 < c.toNat then quoteChar c else [c])
          ++ t.flatMap (fun c => if 128 < c.toNat then quoteChar c else [c]) from rfl]
    rw [if_neg hc, ih (fun x hx => h x (List.mem_cons_of_mem _ hx))]
    rfl

theorem cleanUnicode_of_not_unicode (u : Str) (h : hasUnicode u = false) :
    cleanUnicode u = u := by
  unfold cleanUnicode
  have hn : hasUnicode (urlsplit u).netloc = false :=
    hasUnicode_false_of_sublist (urlsplit_netloc_sublist u) h
  dsimp only
  rw [if_neg (by rw [hn]; simp)]
  unfold hasUnicode at h
  rw [List.any_eq_false] at h
  exact flatMap_quote_id u (fun c hc => by simpa using h c hc)

/-- C6: the literal-URL check succeeds exactly when the registered URL
after normalization agrees with the incoming URL on scheme, host and
path; the normalization makes an empty registered path `/` at
registration, punycode-encodes domain labels holding characters above
the ASCII range (`_clean_unicode`) and percent-encodes non-ASCII path
characters (partly `_clean_unicode`, partly the `parse_url` round trip
inside `_get_url_and_path`, which the last conjunct exercises at the code
point 128 boundary); the verdict ignores the query and fragment of the
incoming URL entirely, and the registration `http://exámple.com/` matches
its punycode-encoded counterpart. -/
theorem c6_url_matching (u : Str) :
    (∀ other, urlMatches (.str u) other = true
      ↔ getUrlAndPath (cleanUnicode u) = getUrlAndPath other)
    ∧ (∀ o1 o2 : Str, (urlsplit o1).scheme = (urlsplit o2).scheme →
        (urlsplit o1).netloc = (urlsplit o2).netloc →
        (urlsplit o1).path = (urlsplit o2).path →
        urlMatches (.str u) o1 = urlMatches (.str u) o2)
    ∧ (urlsplit "http://example.com/p?a=1#f".toList
        = ⟨"http".toList, "example.com".toList, "/p".toList, "a=1".toList, "f".toList⟩)
    ∧ (ensureUrlDefaultPath (.str "http://example.com".toList)
        = .str "http://example.com/".toList)
    ∧ (urlMatches (.str "http://exámple.com/".toList)
        "http://xn--exmple-qta.com/".toList = true)
    ∧ (urlMatches (.str ("http://example.com/".toList ++ [Char.ofNat 128]))
        "http://example.com/%C2%80".toList = true) := by
  have hbase : ∀ other, urlMatches (.str u) other
      = (getUrlAndPath (cleanUnicode u) == getUrlAndPath other) := by
    intro other
    by_cases hu : hasUnicode u = true
    · unfold urlMatches
      dsimp only
      rw [if_pos hu]
    · unfold urlMatches
      dsimp only
      rw [if_neg hu, cleanUnicode_of_not_unicode u (by simpa using hu)]
  refine ⟨?_, ?_, by decide, rfl, by decide, by decide⟩
  · intro other
    rw [hbase other]
    exact beq_iff_eq
  · intro o1 o2 h1 h2 h3
    have hg : getUrlAndPath o1 = getUrlAndPath o2 := by
      unfold getUrlAndPath
      dsimp only
      rw [h1, h2, h3]
    rw [hbase o1, hbase o2, hg]

/-- Witness for C6: the verdict of the URL check is unchanged when the
incoming URL gains a query or a fragment. -/
theorem c6_url_matching_witness :
    urlMatches (.str "http://e.com/p".toList) "http://e.com/p?a=1".toList
      = urlMatches (.str "http://e.com/p".toList) "http://e.com/p#f".toList :=
  (c6_url_matching "http://e.com/p".toList).2.1
    "http://e.com/p?a=1".toList "http://e.com/p#f".toList
    (by decide) (by decide) (by decide)

/-! ### Claim C7 -/

/-- C7 counterexample: in the query `a=1&b=2&a=3` the key `a` occurs twice,
yet the derived params dict maps it to the lone value `3` instead of the
list of all its values, because `groupby` only groups adjacent pairs and a
later group overwrites an earlier one under the same key. -/
theorem c7_params_counterexample :
    ((parseQsl (urlsplit "http://example.com/?a=1&b=2&a=3".toList).query).countP
        (fun p => p.1 == "a".toList) = 2)
    ∧ (dictGet (parseRequestParams "http://example.com/?a=1&b=2&a=3".toList) "a".toList
        = some (.single "3".toList))
    ∧ (QVal.single "3".toList ≠ QVal.multi ["1".toList, "3".toList]) := by
  refine ⟨by decide, by decide, by decide⟩

/-- C7 (amended): the derived params mapping groups the parsed query pairs
by maximal runs of adjacent equal keys; a run of length one contributes its
single value, a longer run the list of its values, and for a key appearing
in several runs the last run wins.  In particular a key occurring exactly
once in the whole query string maps to its single value. -/
theorem c7_params_grouping (url : Str) (k : Str) :
    (dictGet (parseRequestParams url) k
      = lastRunValue k (groupRuns (parseQsl (urlsplit url).query)))
    ∧ (∀ v, (parseQsl (urlsplit url).query).filter (fun p => p.1 == k) = [(k, v)] →
        dictGet (parseRequestParams url) k = some (.single v)) := by
  constructor
  · unfold parseRequestParams
    rw [dictGet_foldl_runs]
    rcases hl : lastRunValue k (groupRuns (parseQsl (urlsplit url).query)) with _ | v <;> rfl
  · intro v hv
    unfold parseRequestParams
    rw [dictGet_foldl_runs, lastRunValue_of_unique _ _ _ hv]

/-- Witness for C7: a concrete single-occurrence key. -/
theorem c7_params_grouping_witness :
    dictGet (parseRequestParams "http://e.com/?x=5&y=7".toList) "x".toList
      = some (.single "5".toList) :=
  (c7_params_grouping "http://e.com/?x=5&y=7".toList "x".toList).2 "5".toList (by decide)

/-! ### Claim C8 -/

/-- C8 counterexample: the character U+0080 is non-ASCII, yet a text body
consisting of it yields plain `text/plain`, because the code only treats
code points strictly above 128 as unicode. -/
theorem c8_content_type_counterexample :
    specHasNonAscii [Char.ofNat 128] = true
    ∧ responseContentType (.text [Char.ofNat 128]) none .unset = some "text/plain".toList
    ∧ ("text/plain".toList ≠ "text/plain; charset=utf-8".toList) := by
  refine ⟨by decide, by decide, by decide⟩

/-- C8 (amended): the content type of a static registration is the
explicitly supplied value when one is given; otherwise `application/json`
when the json convenience argument was used; otherwise the UTF-8 text type
when the body is a text string containing a character with code point
greater than 128; otherwise plain text. -/
theorem c8_content_type_defaults (body : RBody) (j : Option Nat) (c : Option Str) :
    (responseContentType body j (.given c) = c)
    ∧ (∀ x, j = some x → responseContentType body j .unset = some "application/json".toList)
    ∧ (∀ s, body = .text s → hasUnicode s = true →
        responseContentType body none .unset = some "text/plain; charset=utf-8".toList)
    ∧ (∀ s, body = .text s → hasUnicode s = false →
        responseContentType body none .unset = some "text/plain".toList)
    ∧ ((∀ s, body ≠ .text s) →
        responseContentType body none .unset = some "text/plain".toList) := by
  refine ⟨?_, ?_, ?_, ?_, ?_⟩
  · cases j <;> rfl
  · intro x hx
    subst hx
    rfl
  · intro s hs hu
    subst hs
    have he : responseContentType (.text s) none .unset
        = (if hasUnicode s then some "text/plain; charset=utf-8".toList
           else some "text/plain".toList) := rfl
    rw [he, if_pos hu]
  · intro s hs hu
    subst hs
    have he : responseContentType (.text s) none .unset
        = (if hasUnicode s then some "text/plain; charset=utf-8".toList
           else some "text/plain".toList) := rfl
    rw [he, if_neg (by simp [hu])]
  · intro hns
    cases body with
    | text s => exact absurd rfl (hns s)
    | bytes bs => rfl
    | exc e => rfl
    | stream => rfl

/-- Witness for C8: a body with a character above the 128 bound gets the
UTF-8 text type. -/
theorem c8_content_type_defaults_witness :
    responseContentType (.text "é".toList) none .unset
      = some "text/plain; charset=utf-8".toList :=
  (c8_content_type_defaults (.text "é".toList) none none).2.2.1 "é".toList rfl (by decide)

/-! ### Claim C9 -/

/-- C9: for a materialized text or bytes body, the closedness probe
reports closed only once the buffer is exhausted and has been closed,
reports open whenever unread bytes remain, and closing is an idempotent
total operation; well-formedness is preserved by every stream operation
and holds for the stream `_handle_body` builds. -/
theorem c9_stream_closedness (s : ByteStream) (hs : s.wf) :
    ((s.isclosed).1 = true → s.closed = true ∧ s.exhausted = true)
    ∧ (s.pos < s.buf.length → (s.isclosed).1 = false)
    ∧ (s.close.close = s.close)
    ∧ (s.closed = true → s.close = s)
    ∧ ((s.isclosed).2.wf ∧ s.close.wf ∧ (s.read1).2.wf)
    ∧ (∀ b : BodyInput, (handle_body b).closed = false ∧ (handle_body b).wf) := by
  have hclose : ∀ t : ByteStream, t.close.wf := by
    intro t _
    exact ⟨rfl, rfl⟩
  refine ⟨?_, ?_, rfl, ?_, ⟨?_, hclose s, ?_⟩, ?_⟩
  · intro h
    by_cases hc : s.closed = true
    · obtain ⟨hb, _⟩ := hs hc
      exact ⟨hc, by simp [ByteStream.exhausted, hb]⟩
    · exfalso
      unfold ByteStream.isclosed at h
      by_cases hp : s.pos < s.buf.length
      · rw [if_pos ⟨hc, hp⟩] at h
        simp at h
      · rw [if_neg (by simp [hc, hp]), if_pos hc] at h
        simp at h
  · intro hp
    by_cases hc : s.closed = true
    · obtain ⟨hb, _⟩ := hs hc
      rw [hb] at hp
      simp at hp
    · unfold ByteStream.isclosed
      rw [if_pos ⟨hc, hp⟩]
  · intro hc
    obtain ⟨hb, hp⟩ := hs hc
    obtain ⟨b, p, c⟩ := s
    simp only at hb hp hc
    subst hb
    subst hp
    subst hc
    rfl
  · unfold ByteStream.isclosed
    by_cases hc : s.closed = true
    · rw [if_neg (by simp [hc]), if_neg (by simp [hc])]
      exact hs
    · by_cases hp : s.pos < s.buf.length
      · rw [if_pos ⟨hc, hp⟩]
        exact hs
      · rw [if_neg (by simp [hc, hp]), if_pos hc]
        exact hclose s
  · unfold ByteStream.read1
    rcases hget : s.buf.get? s.pos with _ | b
    · exact hs
    · intro hc
      obtain ⟨hb, _⟩ := hs hc
      rw [hb] at hget
      simp at hget
  · intro b
    cases b with
    | text s2 => exact ⟨rfl, by intro h; simp [handle_body] at h⟩
    | bytes bs => exact ⟨rfl, by intro h; simp [handle_body] at h⟩

/-- Witness for C9: a two-byte stream reports open while unread. -/
theorem c9_stream_closedness_witness :
    ((⟨[7, 8], 0, false⟩ : ByteStream).isclosed).1 = false :=
  (c9_stream_closedness ⟨[7, 8], 0, false⟩ (by intro h; simp at h)).2.1 (by decide)

/-! ### Claim C10 -/

/-- C10: `reset` empties the call ledger, clears the passthru prefixes and
installs a fresh empty default registry (also after a custom registry was
installed through `_set_registry`), while the patcher, the coverage flag,
the response callback and the target stay untouched. -/
theorem c10_reset_clears_transient_state (m : MockState) :
    (m.reset.registry = [] ∧ m.reset.calls = [] ∧ m.reset.passthru_prefixes = []
      ∧ m.reset.registryKind = .firstMatch)
    ∧ (∀ k m2, m.setRegistry (.custom k) = .ok m2 →
        m2.registryKind = .custom k ∧ m2.reset.registryKind = .firstMatch)
    ∧ (m.reset.patcher = m.patcher
      ∧ m.reset.assert_all_requests_are_fired = m.assert_all_requests_are_fired
      ∧ m.reset.response_callback = m.response_callback
      ∧ m.reset.target = m.target) := by
  refine ⟨⟨rfl, rfl, rfl, rfl⟩, ?_, ⟨rfl, rfl, rfl, rfl⟩⟩
  intro k m2 h
  unfold MockState.setRegistry at h
  by_cases he : m.registry.isEmpty
  · rw [if_pos he] at h
    cases h
    exact ⟨rfl, rfl⟩
  · rw [if_neg he] at h
    cases h

/-- Witness for C10: a concrete mock with a custom registry installed. -/
theorem c10_reset_clears_transient_state_witness :
    (MockState.mk (.custom 3) [] [] [] true none [] true).reset.registryKind
      = .firstMatch := by
  have h := (c10_reset_clears_transient_state
    (MockState.mk .firstMatch [] [] [] true none [] true)).2.1 3
    (MockState.mk (.custom 3) [] [] [] true none [] true) rfl
  exact h.2

end Responses
